import Mathlib

/-!
Verification of the multiway balanced search tree family (B-Tree and
B+-Tree) of this repository against its specification.

Two layouts are embedded, following the source:

* the leaf-value layout (`BPlusTree` / `Node` in
  `BPlusTreeInterface.cpp` and `BPlusTreeNode.hpp`), modelled in
  namespace `BPlus` as a node store indexed by node ids, so that the
  leaf-chain pointers (`nextLeaf`) and partial mutations left behind by
  an escaping exception are represented faithfully;
* the keyed layout (`BTree` / `BTreeNode` in the `BTree.h` /
  `BTreeNode.hpp` sections of the source), modelled in namespace `BT`
  in the same store-based style.

Machine-level conventions: keys and values are `Int`; C++ exceptions
(`std::out_of_range`, `std::logic_error`) are the `Err.indexOutOfRange`
and `Err.invalidOperation` errors of an error monad that preserves the
state at the throw point (matching heap mutations that survive an
escaping exception); an out-of-bounds unchecked `std::vector` subscript
(undefined behaviour in C++) is trapped as `Err.ubRead`; recursion uses
explicit fuel, with `Err.outOfFuel` signalling exhaustion (never reached
at the evaluated inputs).
-/

/-- C++ error outcomes: `std::out_of_range`, `std::logic_error`
(the spec's `IndexOutOfRange` / `InvalidOperation`), an undefined
out-of-bounds vector read, and fuel exhaustion of the embedding. -/
inductive Err where
  | indexOutOfRange
  | invalidOperation
  | ubRead
  | outOfFuel
deriving DecidableEq, Repr

/-- State-passing error monad: the state at the moment of a throw is
kept, as heap mutations in C++ survive an escaping exception. -/
def StE (σ : Type) (α : Type) : Type := σ → σ × Except Err α

instance : Monad (StE σ) where
  pure a := fun st => (st, Except.ok a)
  bind m f := fun st =>
    match m st with
    | (st1, Except.ok a) => f a st1
    | (st1, Except.error e) => (st1, Except.error e)

/-- Raise an error, keeping the current state. -/
def StE.throwErr (e : Err) : StE σ α := fun st => (st, Except.error e)

/-- Read the whole state. -/
def StE.getSt : StE σ σ := fun st => (st, Except.ok st)

/-- Replace the whole state. -/
def StE.setSt (st : σ) : StE σ Unit := fun _ => (st, Except.ok ())

/-- Model of `std::lower_bound` over a key vector: index of the first
element that is not `< k` (list length when every element is). -/
def lowerBound (keys : List Int) (k : Int) : Nat :=
  match keys with
  | [] => 0
  | x :: xs => if x < k then lowerBound xs k + 1 else 0

/-- Model of `std::upper_bound` over a key vector: index of the first
element that is `> k` (list length when none is). -/
def upperBound (keys : List Int) (k : Int) : Nat :=
  match keys with
  | [] => 0
  | x :: xs => if k < x then 0 else upperBound xs k + 1

/-- Shared `findKeyIndex` body of both layouts: binary search, returning
the index only on an exact match. -/
def findKeyIdx (keys : List Int) (k : Int) : Option Nat :=
  let i := lowerBound keys k
  match keys.get? i with
  | some x => if x = k then some i else none
  | none => none

/-- Model of `std::vector::resize` for value vectors: truncates, or pads with
value-initialized elements (`0`) when growing. -/
def resizeL (l : List Int) (n : Nat) : List Int :=
  l.take n ++ List.replicate (n - l.length) 0

namespace BPlus

/-- One node of the leaf-value layout (`Node` in `BPlusTreeNode.hpp`):
`children` and `nextLeaf` hold node ids of the store. The parent
back-reference is omitted: no `BPlusTree` algorithm reads it. -/
structure PNode where
  isLeaf : Bool
  keys : List Int
  values : List Int
  children : List Nat
  nextLeaf : Option Nat
deriving DecidableEq, Repr

/-- The tree state: degree, node store (ids are list positions; nodes
absorbed by a merge simply become unreachable), root id, element count. -/
structure PState where
  deg : Nat
  nodes : List PNode
  root : Nat
  size : Nat
deriving DecidableEq, Repr

/-- An empty tree of minimum degree `d`: a single empty leaf root. -/
def initState (d : Nat) : PState :=
  { deg := d
    nodes := [{ isLeaf := true, keys := [], values := [], children := [], nextLeaf := none }]
    root := 0
    size := 0 }

abbrev M (α : Type) : Type := StE PState α

/-- Dereference a node id (an invalid id would be a dangling-pointer
dereference, undefined behaviour). -/
def getNode (id : Nat) : M PNode := fun st =>
  match st.nodes.get? id with
  | some n => (st, Except.ok n)
  | none => (st, Except.error Err.ubRead)

/-- Overwrite the node stored at `id`. -/
def setNode (id : Nat) (n : PNode) : M Unit := fun st =>
  ({ st with nodes := st.nodes.set id n }, Except.ok ())

/-- Allocate a fresh node, returning its id. -/
def alloc (n : PNode) : M Nat := fun st =>
  ({ st with nodes := st.nodes ++ [n] }, Except.ok (st.nodes.length))

/-- Read the configured minimum degree. -/
def getDeg : M Nat := fun st => (st, Except.ok st.deg)

/-- Read the root id. -/
def getRoot : M Nat := fun st => (st, Except.ok st.root)

/-- Replace the root id. -/
def setRoot (id : Nat) : M Unit := fun st =>
  ({ st with root := id }, Except.ok ())

/-- Increment the element count. -/
def incSize : M Unit := fun st => ({ st with size := st.size + 1 }, Except.ok ())

/-- Decrement the element count. -/
def decSize : M Unit := fun st => ({ st with size := st.size - 1 }, Except.ok ())

/-- Embeds `Node::insertKey`. -/
def nInsertKey (id : Nat) (k : Int) (idx : Nat) : M Unit := do
  let n ← getNode id
  if idx ≤ n.keys.length then
    setNode id { n with keys := n.keys.insertIdx idx k }
  else
    StE.throwErr Err.indexOutOfRange

/-- Embeds `Node::removeKey`. -/
def nRemoveKey (id : Nat) (idx : Nat) : M Unit := do
  let n ← getNode id
  if idx < n.keys.length then
    setNode id { n with keys := n.keys.eraseIdx idx }
  else
    StE.throwErr Err.indexOutOfRange

/-- Embeds `Node::insertValue` (leaf-value layout: rejects non-leaf nodes). -/
def nInsertValue (id : Nat) (v : Int) (idx : Nat) : M Unit := do
  let n ← getNode id
  if !n.isLeaf then
    StE.throwErr Err.invalidOperation
  else if idx ≤ n.values.length then
    setNode id { n with values := n.values.insertIdx idx v }
  else
    StE.throwErr Err.indexOutOfRange

/-- Embeds `Node::removeValue` (leaf-value layout: rejects non-leaf nodes). -/
def nRemoveValue (id : Nat) (idx : Nat) : M Unit := do
  let n ← getNode id
  if !n.isLeaf then
    StE.throwErr Err.invalidOperation
  else if idx < n.values.length then
    setNode id { n with values := n.values.eraseIdx idx }
  else
    StE.throwErr Err.indexOutOfRange

/-- Embeds `Node::insertChild` (only legal on internal nodes). -/
def nInsertChild (id : Nat) (childId : Nat) (idx : Nat) : M Unit := do
  let n ← getNode id
  if n.isLeaf then
    StE.throwErr Err.invalidOperation
  else if idx ≤ n.children.length then
    setNode id { n with children := n.children.insertIdx idx childId }
  else
    StE.throwErr Err.indexOutOfRange

/-- Embeds `Node::removeChild` (only legal on internal nodes); returns the
removed child id. -/
def nRemoveChild (id : Nat) (idx : Nat) : M Nat := do
  let n ← getNode id
  if n.isLeaf then
    StE.throwErr Err.invalidOperation
  else
    match n.children.get? idx with
    | some c => do
        setNode id { n with children := n.children.eraseIdx idx }
        pure c
    | none => StE.throwErr Err.indexOutOfRange

/-- Embeds `Node::findKeyIndex`. -/
def nFindKeyIndex (id : Nat) (k : Int) : M (Option Nat) := do
  let n ← getNode id
  pure (findKeyIdx n.keys k)

/-- Embeds `Node::findChildIndex` (illegal on leaves). -/
def nFindChildIndex (id : Nat) (k : Int) : M Nat := do
  let n ← getNode id
  if n.isLeaf then
    StE.throwErr Err.invalidOperation
  else
    pure (upperBound n.keys k)

/-- Embeds `Node::getKeysSnapshot`. -/
def nGetKeysSnapshot (id : Nat) : M (List Int) := do
  let n ← getNode id
  pure n.keys

/-- Embeds `Node::getValuesSnapshot` (leaf-value layout: rejects non-leaf). -/
def nGetValuesSnapshot (id : Nat) : M (List Int) := do
  let n ← getNode id
  if !n.isLeaf then
    StE.throwErr Err.invalidOperation
  else
    pure n.values

/-- Embeds `Node::getKey` with bounds check. -/
def nGetKey (id : Nat) (idx : Nat) : M Int := do
  let n ← getNode id
  match n.keys.get? idx with
  | some k => pure k
  | none => StE.throwErr Err.indexOutOfRange

/-- Embeds `Node::getValue` (leaf-value layout: rejects non-leaf) with bounds
check. -/
def nGetValue (id : Nat) (idx : Nat) : M Int := do
  let n ← getNode id
  if !n.isLeaf then
    StE.throwErr Err.invalidOperation
  else
    match n.values.get? idx with
    | some v => pure v
    | none => StE.throwErr Err.indexOutOfRange

/-- Embeds `Node::getChild` (illegal on leaves) with bounds check. -/
def nGetChild (id : Nat) (idx : Nat) : M Nat := do
  let n ← getNode id
  if n.isLeaf then
    StE.throwErr Err.invalidOperation
  else
    match n.children.get? idx with
    | some c => pure c
    | none => StE.throwErr Err.indexOutOfRange

/-- Embeds `Node::isLeaf`. -/
def nIsLeaf (id : Nat) : M Bool := do
  let n ← getNode id
  pure n.isLeaf

/-- Embeds `Node::isFull`: key count at least `2d-1`. -/
def nIsFull (id : Nat) : M Bool := do
  let n ← getNode id
  let d ← getDeg
  pure (decide (2 * d - 1 ≤ n.keys.length))

/-- Embeds `Node::hasMinKeys`: key count at least `d-1`. -/
def nHasMinKeys (id : Nat) : M Bool := do
  let n ← getNode id
  let d ← getDeg
  pure (decide (d - 1 ≤ n.keys.length))

/-- Embeds `Node::numKeys`. -/
def nNumKeys (id : Nat) : M Nat := do
  let n ← getNode id
  pure n.keys.length

/-- Embeds `Node::numChildren`. -/
def nNumChildren (id : Nat) : M Nat := do
  let n ← getNode id
  pure n.children.length

/-- Embeds `Node::getNextLeaf`: `nullptr` (`none`) on internal nodes. -/
def nGetNextLeaf (id : Nat) : M (Option Nat) := do
  let n ← getNode id
  if !n.isLeaf then
    pure none
  else
    pure n.nextLeaf

/-- Embeds `Node::setNextLeaf`: silently ignored on internal nodes. -/
def nSetNextLeaf (id : Nat) (next : Option Nat) : M Unit := do
  let n ← getNode id
  if !n.isLeaf then
    pure ()
  else
    setNode id { n with nextLeaf := next }

/-- Embeds `Node::splitLeaf`: move the upper half of keys and values (from the
midpoint on) into a fresh leaf, rewiring the chain so the new leaf takes
the old `nextLeaf` and the original points at the new leaf. Returns the
new leaf's id. -/
def nSplitLeaf (id : Nat) : M Nat := do
  let n ← getNode id
  if !n.isLeaf then
    StE.throwErr Err.invalidOperation
  else
    let mid := n.keys.length / 2
    let newId ← alloc
      { isLeaf := true
        keys := n.keys.drop mid
        values := n.values.drop mid
        children := []
        nextLeaf := n.nextLeaf }
    setNode id
      { n with
        keys := n.keys.take mid
        values := n.values.take mid
        nextLeaf := some newId }
    pure newId

/-- Embeds `Node::splitInternal`: promote the key at `Degree - 1` and move the
keys and children above it into a fresh internal node. Returns the
promoted key and the new node's id. -/
def nSplitInternal (id : Nat) : M (Int × Nat) := do
  let n ← getNode id
  if n.isLeaf then
    StE.throwErr Err.invalidOperation
  else
    let d ← getDeg
    let mid := d - 1
    match n.keys.get? mid with
    | none => StE.throwErr Err.ubRead
    | some midKey => do
        let newId ← alloc
          { isLeaf := false
            keys := n.keys.drop (mid + 1)
            values := []
            children := n.children.drop (mid + 1)
            nextLeaf := none }
        setNode id
          { n with
            keys := n.keys.take mid
            children := n.children.take (mid + 1) }
        pure (midKey, newId)


/-- Embeds `BPlusTree::splitChild`: split the (full) child at `childIndex` of
`parentId`; for a leaf child the new sibling's first key is copied up as
separator, for an internal child the promoted key is inserted. -/
def splitChild (parentId : Nat) (childIndex : Nat) : M Unit := do
  let childId ← nGetChild parentId childIndex
  let leaf ← nIsLeaf childId
  if leaf then
    let newId ← nSplitLeaf childId
    let sep ← nGetKey newId 0
    nInsertKey parentId sep childIndex
    nInsertChild parentId newId (childIndex + 1)
  else
    let mn ← nSplitInternal childId
    nInsertKey parentId mn.1 childIndex
    nInsertChild parentId mn.2 (childIndex + 1)

/-- The scan `while (i < keys.size() && keys[i] <= key) i++` of
`BPlusTree::insertNonFull`: index of the first key `> key`. -/
def scanLE (keys : List Int) (k : Int) : Nat :=
  match keys with
  | [] => 0
  | x :: xs => if x ≤ k then scanLE xs k + 1 else 0

/-- Embeds `BPlusTree::insertNonFull` (recursion depth bounded by fuel). -/
def insertNonFull : Nat → Nat → Int → Int → M Bool
  | 0, _, _, _ => StE.throwErr Err.outOfFuel
  | fuel + 1, id, key, val => do
    let leaf ← nIsLeaf id
    if leaf then
      match ← nFindKeyIndex id key with
      | some _ => pure false
      | none => do
          let keys ← nGetKeysSnapshot id
          let i := lowerBound keys key
          nInsertKey id key i
          nInsertValue id val i
          pure true
    else
      let keys ← nGetKeysSnapshot id
      let i := scanLE keys key
      let childId ← nGetChild id i
      let full ← nIsFull childId
      if full then
        splitChild id i
        let ki ← nGetKey id i
        if ki < key then
          let c ← nGetChild id (i + 1)
          insertNonFull fuel c key val
        else
          let c ← nGetChild id i
          insertNonFull fuel c key val
      else
        insertNonFull fuel childId key val

/-- Embeds `BPlusTree::insert`: split a full root first (new root above it),
then insert via `insertNonFull`; increment the count on success. -/
def insert (fuel : Nat) (key val : Int) : M Bool := do
  let r ← getRoot
  let full ← nIsFull r
  if full then
    let newRootId ← alloc
      { isLeaf := false, keys := [], values := [], children := [], nextLeaf := none }
    setRoot newRootId
    nInsertChild newRootId r 0
    splitChild newRootId 0
  let r2 ← getRoot
  let result ← insertNonFull fuel r2 key val
  if result then incSize
  pure result

/-- Descent loop of `BPlusTree::find`. -/
def findLoop : Nat → Nat → Int → M (Option Int)
  | 0, _, _ => StE.throwErr Err.outOfFuel
  | fuel + 1, id, key => do
    let leaf ← nIsLeaf id
    if leaf then
      match ← nFindKeyIndex id key with
      | some i => do
          let v ← nGetValue id i
          pure (some v)
      | none => pure none
    else
      let i ← nFindChildIndex id key
      let c ← nGetChild id i
      findLoop fuel c key

/-- Embeds `BPlusTree::find`. -/
def find (fuel : Nat) (key : Int) : M (Option Int) := do
  let r ← getRoot
  findLoop fuel r key

/-- Embeds `BPlusTree::borrowFromLeft`. -/
def borrowFromLeft (parentId : Nat) (childIndex : Nat) : M Unit := do
  let childId ← nGetChild parentId childIndex
  let leftId ← nGetChild parentId (childIndex - 1)
  let leaf ← nIsLeaf childId
  if !leaf then
    let parentKey ← nGetKey parentId (childIndex - 1)
    nInsertKey childId parentKey 0
    let lk ← nNumKeys leftId
    let leftLastKey ← nGetKey leftId (lk - 1)
    nRemoveKey parentId (childIndex - 1)
    nInsertKey parentId leftLastKey (childIndex - 1)
    let lc ← nNumChildren leftId
    if 0 < lc then
      let moved ← nRemoveChild leftId (lc - 1)
      nInsertChild childId moved 0
    let lk2 ← nNumKeys leftId
    nRemoveKey leftId (lk2 - 1)
  else
    let lk ← nNumKeys leftId
    let leftLastKey ← nGetKey leftId (lk - 1)
    let leftLastValue ← nGetValue leftId (lk - 1)
    nInsertKey childId leftLastKey 0
    nInsertValue childId leftLastValue 0
    nRemoveKey parentId (childIndex - 1)
    nInsertKey parentId leftLastKey (childIndex - 1)
    let lk2 ← nNumKeys leftId
    nRemoveKey leftId (lk2 - 1)
    let lk3 ← nNumKeys leftId
    nRemoveValue leftId (lk3 - 1)

/-- Embeds `BPlusTree::borrowFromRight`. Note the leaf branch: the value is
inserted at `child->numKeys()` evaluated after the key insertion. -/
def borrowFromRight (parentId : Nat) (childIndex : Nat) : M Unit := do
  let childId ← nGetChild parentId childIndex
  let rightId ← nGetChild parentId (childIndex + 1)
  let leaf ← nIsLeaf childId
  if !leaf then
    let parentKey ← nGetKey parentId childIndex
    let ck ← nNumKeys childId
    nInsertKey childId parentKey ck
    let rightFirstKey ← nGetKey rightId 0
    nRemoveKey parentId childIndex
    nInsertKey parentId rightFirstKey childIndex
    let rc ← nNumChildren rightId
    if 0 < rc then
      let moved ← nRemoveChild rightId 0
      let cc ← nNumChildren childId
      nInsertChild childId moved cc
    nRemoveKey rightId 0
  else
    let rightFirstKey ← nGetKey rightId 0
    let rightFirstValue ← nGetValue rightId 0
    let ck ← nNumKeys childId
    nInsertKey childId rightFirstKey ck
    let ck2 ← nNumKeys childId
    nInsertValue childId rightFirstValue ck2
    nRemoveKey parentId childIndex
    let newSeparator ← nGetKey rightId 1
    nInsertKey parentId newSeparator childIndex
    nRemoveKey rightId 0
    nRemoveValue rightId 0

/-- The merge loop copying the right sibling's keys into the left leaf:
each round inserts the key at `numKeys()` and then the value at
`numKeys()` re-read after that insertion. The value index is read from
the snapshot unchecked (`rightValues[i]`). -/
def mergeLeafLoop : Nat → List Int → List Int → Nat → M Unit
  | _, [], _, _ => pure ()
  | i, k :: ks, rightValues, leftId => do
    let lk ← nNumKeys leftId
    nInsertKey leftId k lk
    match rightValues.get? i with
    | none => StE.throwErr Err.ubRead
    | some v => do
        let lk2 ← nNumKeys leftId
        nInsertValue leftId v lk2
        mergeLeafLoop (i + 1) ks rightValues leftId

/-- The `for (i = 0; i < rightChild->numChildren(); ++i)` loop of
`BPlusTree::mergeNodes`: removes the child at position `i` of the
shrinking vector each round (skipping every other child). -/
def mergeChildLoop : Nat → Nat → Nat → Nat → M Unit
  | 0, _, _, _ => StE.throwErr Err.outOfFuel
  | fuel + 1, i, leftId, rightId => do
    let rc ← nNumChildren rightId
    if i < rc then
      let moved ← nRemoveChild rightId i
      let lc ← nNumChildren leftId
      nInsertChild leftId moved lc
      mergeChildLoop fuel (i + 1) leftId rightId
    else
      pure ()

/-- The key-copy loop of the internal branch of
`BPlusTree::mergeNodes`. -/
def mergeKeyLoop : List Int → Nat → M Unit
  | [], _ => pure ()
  | k :: ks, leftId => do
    let lk ← nNumKeys leftId
    nInsertKey leftId k lk
    mergeKeyLoop ks leftId

/-- Embeds `BPlusTree::mergeNodes`: merge the child at `leftChildIndex + 1`
into the child at `leftChildIndex`. For leaves, link the left leaf to
the right leaf's successor and drop the separator; for internal nodes,
pull the separator down. -/
def mergeNodes (fuel : Nat) (parentId : Nat) (leftChildIndex : Nat) : M Unit := do
  let leftId ← nGetChild parentId leftChildIndex
  let rightId ← nGetChild parentId (leftChildIndex + 1)
  let leaf ← nIsLeaf leftId
  if !leaf then
    let separator ← nGetKey parentId leftChildIndex
    let lk ← nNumKeys leftId
    nInsertKey leftId separator lk
    let rightKeys ← nGetKeysSnapshot rightId
    mergeKeyLoop rightKeys leftId
    mergeChildLoop fuel 0 leftId rightId
  else
    let rightKeys ← nGetKeysSnapshot rightId
    let rightValues ← nGetValuesSnapshot rightId
    mergeLeafLoop 0 rightKeys rightValues leftId
    let next ← nGetNextLeaf rightId
    nSetNextLeaf leftId next
  nRemoveKey parentId leftChildIndex
  let _ ← nRemoveChild parentId (leftChildIndex + 1)
  pure ()

/-- Embeds `BPlusTree::removeKey` (recursion depth bounded by fuel). The
rebalancing branches mirror the source: borrowing happens only when a
sibling holds strictly more than `Degree - 1` keys, and the child is
rebalanced only when it is already below `Degree - 1` keys. -/
def removeKeyGo : Nat → Nat → Int → M Bool
  | 0, _, _ => StE.throwErr Err.outOfFuel
  | fuel + 1, id, key => do
    let leaf ← nIsLeaf id
    if leaf then
      match ← nFindKeyIndex id key with
      | none => pure false
      | some i => do
          nRemoveKey id i
          nRemoveValue id i
          pure true
    else
      let index ← nFindChildIndex id key
      let childId ← nGetChild id index
      let hm ← nHasMinKeys childId
      if hm then
        removeKeyGo fuel childId key
      else
        let d ← getDeg
        if 0 < index then
          let leftId ← nGetChild id (index - 1)
          let lmk ← nNumKeys leftId
          if d - 1 < lmk then
            borrowFromLeft id index
            removeKeyGo fuel childId key
          else
            let nc ← nNumChildren id
            if (index : Int) < (nc : Int) - 1 then
              let rightId ← nGetChild id (index + 1)
              let rmk ← nNumKeys rightId
              if d - 1 < rmk then
                borrowFromRight id index
                removeKeyGo fuel childId key
              else do
                mergeNodes fuel id (index - 1)
                let c ← nGetChild id (index - 1)
                removeKeyGo fuel c key
            else do
              mergeNodes fuel id (index - 1)
              let c ← nGetChild id (index - 1)
              removeKeyGo fuel c key
        else
          let nc ← nNumChildren id
          if (index : Int) < (nc : Int) - 1 then do
            mergeNodes fuel id index
            let c ← nGetChild id index
            removeKeyGo fuel c key
          else
            removeKeyGo fuel childId key

/-- Embeds `BPlusTree::remove`: delete via `removeKey`, then collapse an
internal root left with zero keys; decrement the count on success. -/
def remove (fuel : Nat) (key : Int) : M Bool := do
  let r ← getRoot
  let result ← removeKeyGo fuel r key
  let r2 ← getRoot
  let leaf ← nIsLeaf r2
  let nk ← nNumKeys r2
  if !leaf && nk = 0 then
    let newRoot ← nRemoveChild r2 0
    setRoot newRoot
  if result then decSize
  pure result

/-- The per-leaf visit of `BPlusTree::traverseInOrder`: `values[i]` is
read for each `i < keys.size()` from the snapshots (unchecked subscript
on the value vector). -/
def readPairs : List Int → List Int → Nat → Except Err (List (Int × Int))
  | [], _, _ => Except.ok []
  | k :: ks, values, i =>
    match values.get? i with
    | none => Except.error Err.ubRead
    | some v =>
      match readPairs ks values (i + 1) with
      | Except.ok rest => Except.ok ((k, v) :: rest)
      | Except.error e => Except.error e

/-- Lift a pure `Except` computation into the monad. -/
def liftExc (x : Except Err α) : StE σ α := fun st => (st, x)

/-- The `for` loop over an internal node's keys in
`BPlusTree::traverseInOrder`, visiting `getChild(i + 1)` per key. -/
def traverseKidsLoop (go : Nat → M (List (Int × Int))) :
    Nat → Nat → Nat → M (List (Int × Int))
  | _, 0, _ => pure []
  | id, remaining + 1, i => do
    let c ← nGetChild id (i + 1)
    let here ← go c
    let rest ← traverseKidsLoop go id remaining (i + 1)
    pure (here ++ rest)

/-- Embeds `BPlusTree::traverseInOrder`, collecting the visited pairs. -/
def traverseGo : Nat → Nat → M (List (Int × Int))
  | 0, _ => StE.throwErr Err.outOfFuel
  | fuel + 1, id => do
    let leaf ← nIsLeaf id
    if leaf then
      let keys ← nGetKeysSnapshot id
      let values ← nGetValuesSnapshot id
      liftExc (readPairs keys values 0)
    else
      let keys ← nGetKeysSnapshot id
      let c0 ← nGetChild id 0
      let first ← traverseGo fuel c0
      let rest ← traverseKidsLoop (traverseGo fuel) id keys.length 0
      pure (first ++ rest)

/-- Embeds `BPlusTree::traverse`. -/
def traverse (fuel : Nat) : M (List (Int × Int)) := do
  let r ← getRoot
  traverseGo fuel r

/-- Embeds `BPlusTree::findLeaf`: descend to the leaf that would contain
`key`. -/
def findLeafGo : Nat → Nat → Int → M Nat
  | 0, _, _ => StE.throwErr Err.outOfFuel
  | fuel + 1, id, key => do
    let leaf ← nIsLeaf id
    if leaf then
      pure id
    else
      let i ← nFindChildIndex id key
      let c ← nGetChild id i
      findLeafGo fuel c key

/-- One leaf's scan in `BPlusTree::rangeQuery`: emit the pairs within
`[lo, hi]` (reading `values[i]` unchecked) and report whether a key
`> hi` caused the early return. -/
def rangeScan : List Int → List Int → Nat → Int → Int →
    Except Err (List (Int × Int) × Bool)
  | [], _, _, _, _ => Except.ok ([], false)
  | k :: ks, values, i, lo, hi =>
    if lo ≤ k ∧ k ≤ hi then
      match values.get? i with
      | none => Except.error Err.ubRead
      | some v =>
        if hi < k then Except.ok ([(k, v)], true)
        else
          match rangeScan ks values (i + 1) lo hi with
          | Except.ok p => Except.ok ((k, v) :: p.1, p.2)
          | Except.error e => Except.error e
    else
      if hi < k then Except.ok ([], true)
      else
        match rangeScan ks values (i + 1) lo hi with
        | Except.ok p => Except.ok p
        | Except.error e => Except.error e

/-- The leaf-chain walk of `BPlusTree::rangeQuery`. -/
def rangeLoop : Nat → Option Nat → Int → Int → M (List (Int × Int))
  | 0, _, _, _ => StE.throwErr Err.outOfFuel
  | _, none, _, _ => pure []
  | fuel + 1, some leafId, lo, hi => do
    let keys ← nGetKeysSnapshot leafId
    let values ← nGetValuesSnapshot leafId
    let p ← liftExc (rangeScan keys values 0 lo hi)
    if p.2 then
      pure p.1
    else
      let next ← nGetNextLeaf leafId
      let rest ← rangeLoop fuel next lo hi
      pure (p.1 ++ rest)

/-- Embeds `BPlusTree::rangeQuery`: descend to the leaf that would contain
`lo`, then walk the leaf chain. -/
def rangeQuery (fuel : Nat) (lo hi : Int) : M (List (Int × Int)) := do
  let r ← getRoot
  let leafId ← findLeafGo fuel r lo
  rangeLoop fuel (some leafId) lo hi

/-- The keys seen by walking the leaf chain from a given leaf. -/
def chainKeys (st : PState) : Nat → Option Nat → List Int
  | 0, _ => []
  | _, none => []
  | fuel + 1, some id =>
    match st.nodes.get? id with
    | none => []
    | some n => n.keys ++ chainKeys st fuel n.nextLeaf

end BPlus

namespace BT

/-- One node of the keyed layout (`BTreeNode` in `BTreeNode.hpp`):
values may sit at any level; there is no leaf chain. The parent
back-reference is omitted: no `BTree` algorithm reads it. -/
structure KNode where
  isLeaf : Bool
  keys : List Int
  values : List Int
  children : List Nat
deriving DecidableEq, Repr

/-- The keyed tree state: degree, node store, root id, element count. -/
structure KState where
  deg : Nat
  nodes : List KNode
  root : Nat
  size : Nat
deriving DecidableEq, Repr

/-- An empty keyed tree of minimum degree `d`. -/
def initState (d : Nat) : KState :=
  { deg := d
    nodes := [{ isLeaf := true, keys := [], values := [], children := [] }]
    root := 0
    size := 0 }

abbrev MK (α : Type) : Type := StE KState α

/-- Dereference a node id. -/
def getNode (id : Nat) : MK KNode := fun st =>
  match st.nodes.get? id with
  | some n => (st, Except.ok n)
  | none => (st, Except.error Err.ubRead)

/-- Overwrite the node stored at `id`. -/
def setNode (id : Nat) (n : KNode) : MK Unit := fun st =>
  ({ st with nodes := st.nodes.set id n }, Except.ok ())

/-- Allocate a fresh node, returning its id. -/
def alloc (n : KNode) : MK Nat := fun st =>
  ({ st with nodes := st.nodes ++ [n] }, Except.ok (st.nodes.length))

/-- Read the configured minimum degree. -/
def getDeg : MK Nat := fun st => (st, Except.ok st.deg)

/-- Read the root id. -/
def getRoot : MK Nat := fun st => (st, Except.ok st.root)

/-- Replace the root id. -/
def setRoot (id : Nat) : MK Unit := fun st =>
  ({ st with root := id }, Except.ok ())

/-- Increment the element count. -/
def incSize : MK Unit := fun st => ({ st with size := st.size + 1 }, Except.ok ())

/-- Decrement the element count. -/
def decSize : MK Unit := fun st => ({ st with size := st.size - 1 }, Except.ok ())

/-- Embeds `BTreeNode::insertKey`. -/
def nInsertKey (id : Nat) (k : Int) (idx : Nat) : MK Unit := do
  let n ← getNode id
  if idx ≤ n.keys.length then
    setNode id { n with keys := n.keys.insertIdx idx k }
  else
    StE.throwErr Err.indexOutOfRange

/-- Embeds `BTreeNode::removeKey`. -/
def nRemoveKey (id : Nat) (idx : Nat) : MK Unit := do
  let n ← getNode id
  if idx < n.keys.length then
    setNode id { n with keys := n.keys.eraseIdx idx }
  else
    StE.throwErr Err.indexOutOfRange

/-- Embeds `BTreeNode::insertValue`: unlike the leaf-value layout, the keyed
node does not restrict value mutation to leaves. -/
def nInsertValue (id : Nat) (v : Int) (idx : Nat) : MK Unit := do
  let n ← getNode id
  if idx ≤ n.values.length then
    setNode id { n with values := n.values.insertIdx idx v }
  else
    StE.throwErr Err.indexOutOfRange

/-- Embeds `BTreeNode::removeValue` (no leaf restriction). -/
def nRemoveValue (id : Nat) (idx : Nat) : MK Unit := do
  let n ← getNode id
  if idx < n.values.length then
    setNode id { n with values := n.values.eraseIdx idx }
  else
    StE.throwErr Err.indexOutOfRange

/-- Embeds `BTreeNode::insertChild` (only legal on internal nodes). -/
def nInsertChild (id : Nat) (childId : Nat) (idx : Nat) : MK Unit := do
  let n ← getNode id
  if n.isLeaf then
    StE.throwErr Err.invalidOperation
  else if idx ≤ n.children.length then
    setNode id { n with children := n.children.insertIdx idx childId }
  else
    StE.throwErr Err.indexOutOfRange

/-- Embeds `BTreeNode::removeChild`; returns the removed child id. -/
def nRemoveChild (id : Nat) (idx : Nat) : MK Nat := do
  let n ← getNode id
  if n.isLeaf then
    StE.throwErr Err.invalidOperation
  else
    match n.children.get? idx with
    | some c => do
        setNode id { n with children := n.children.eraseIdx idx }
        pure c
    | none => StE.throwErr Err.indexOutOfRange

/-- Embeds `BTreeNode::findKeyIndex`. -/
def nFindKeyIndex (id : Nat) (k : Int) : MK (Option Nat) := do
  let n ← getNode id
  pure (findKeyIdx n.keys k)

/-- Embeds `BTreeNode::findChildIndex` (illegal on leaves). -/
def nFindChildIndex (id : Nat) (k : Int) : MK Nat := do
  let n ← getNode id
  if n.isLeaf then
    StE.throwErr Err.invalidOperation
  else
    pure (upperBound n.keys k)

/-- Embeds `BTreeNode::getKeysSnapshot`. -/
def nGetKeysSnapshot (id : Nat) : MK (List Int) := do
  let n ← getNode id
  pure n.keys

/-- Embeds `BTreeNode::getValuesSnapshot` (no leaf restriction). -/
def nGetValuesSnapshot (id : Nat) : MK (List Int) := do
  let n ← getNode id
  pure n.values

/-- Embeds `BTreeNode::getKey` with bounds check. -/
def nGetKey (id : Nat) (idx : Nat) : MK Int := do
  let n ← getNode id
  match n.keys.get? idx with
  | some k => pure k
  | none => StE.throwErr Err.indexOutOfRange

/-- Embeds `BTreeNode::getValue` with bounds check (no leaf restriction). -/
def nGetValue (id : Nat) (idx : Nat) : MK Int := do
  let n ← getNode id
  match n.values.get? idx with
  | some v => pure v
  | none => StE.throwErr Err.indexOutOfRange

/-- Embeds `BTreeNode::getChild` (illegal on leaves) with bounds check. -/
def nGetChild (id : Nat) (idx : Nat) : MK Nat := do
  let n ← getNode id
  if n.isLeaf then
    StE.throwErr Err.invalidOperation
  else
    match n.children.get? idx with
    | some c => pure c
    | none => StE.throwErr Err.indexOutOfRange

/-- Embeds `BTreeNode::isLeaf`. -/
def nIsLeaf (id : Nat) : MK Bool := do
  let n ← getNode id
  pure n.isLeaf

/-- Embeds `BTreeNode::isFull`. -/
def nIsFull (id : Nat) : MK Bool := do
  let n ← getNode id
  let d ← getDeg
  pure (decide (2 * d - 1 ≤ n.keys.length))

/-- Embeds `BTreeNode::numKeys`. -/
def nNumKeys (id : Nat) : MK Nat := do
  let n ← getNode id
  pure n.keys.length

/-- Embeds `BTreeNode::numValues`. -/
def nNumValues (id : Nat) : MK Nat := do
  let n ← getNode id
  pure n.values.length

/-- Embeds `BTreeNode::numChildren`. -/
def nNumChildren (id : Nat) : MK Nat := do
  let n ← getNode id
  pure n.children.length

/-- Embeds `BTreeNode::split` (keyed layout), following the source statement by
statement. The midpoint key is read at `keys.size() / 2` and returned to
the caller; the upper halves of the vectors move to a fresh node. In the
leaf branch the source then pushes the midpoint key onto the front of
the new node's keys and guards the midpoint value transfer with
`midPoint < _values.size()` evaluated after `_values.resize(midPoint)`
(so that transfer never runs). `resize` is modelled by `resizeL` (pad
with `0` on growth) for values, and by `take` for the child vector. -/
def nSplit (id : Nat) : MK (Int × Nat) := do
  let n ← getNode id
  let mid := n.keys.length / 2
  match n.keys.get? mid with
  | none => StE.throwErr Err.ubRead
  | some midKey =>
    if n.isLeaf then
      let newKeys0 := n.keys.drop (mid + 1)
      let keys1 := n.keys.take mid
      let newValues0 := n.values.drop (mid + 1)
      let values1 := resizeL n.values mid
      let newKeys1 := midKey :: newKeys0
      if hlt : mid < values1.length then do
        let newId ← alloc
          { isLeaf := true
            keys := newKeys1
            values := values1.get ⟨mid, hlt⟩ :: newValues0
            children := [] }
        setNode id { n with keys := keys1.dropLast, values := values1.dropLast }
        pure (midKey, newId)
      else do
        let newId ← alloc
          { isLeaf := true, keys := newKeys1, values := newValues0, children := [] }
        setNode id { n with keys := keys1, values := values1 }
        pure (midKey, newId)
    else do
      let newId ← alloc
        { isLeaf := false
          keys := n.keys.drop (mid + 1)
          values := []
          children := n.children.drop (mid + 1) }
      setNode id
        { n with
          keys := n.keys.take mid
          children := n.children.take (mid + 1) }
      pure (midKey, newId)

/-- Embeds `BTree::splitChild`: split the child, insert the promoted key into
the parent, and — when the child is a leaf — look the promoted key up in
the (already shrunk) child to fetch its value for the parent. -/
def splitChild (parentId : Nat) (childIndex : Nat) : MK Unit := do
  let childId ← nGetChild parentId childIndex
  let mn ← nSplit childId
  nInsertKey parentId mn.1 childIndex
  let leaf ← nIsLeaf childId
  if leaf then
    match ← nFindKeyIndex childId mn.1 with
    | some ki => do
        let v ← nGetValue childId ki
        nInsertValue parentId v childIndex
    | none => pure ()
  nInsertChild parentId mn.2 (childIndex + 1)

/-- Embeds `BTree::insertNonFull`. -/
def insertNonFull : Nat → Nat → Int → Int → MK Bool
  | 0, _, _, _ => StE.throwErr Err.outOfFuel
  | fuel + 1, id, key, val => do
    let leaf ← nIsLeaf id
    if leaf then
      match ← nFindKeyIndex id key with
      | some _ => pure false
      | none => do
          let keys ← nGetKeysSnapshot id
          let i := lowerBound keys key
          nInsertKey id key i
          nInsertValue id val i
          pure true
    else
      let i ← nFindChildIndex id key
      let childId ← nGetChild id i
      let full ← nIsFull childId
      if full then
        splitChild id i
        let ki ← nGetKey id i
        if ki < key then
          let c ← nGetChild id (i + 1)
          insertNonFull fuel c key val
        else
          let c ← nGetChild id i
          insertNonFull fuel c key val
      else
        insertNonFull fuel childId key val

/-- Embeds `BTree::insert`. -/
def insert (fuel : Nat) (key val : Int) : MK Bool := do
  let r ← getRoot
  let full ← nIsFull r
  if full then
    let newRootId ← alloc { isLeaf := false, keys := [], values := [], children := [] }
    setRoot newRootId
    nInsertChild newRootId r 0
    splitChild newRootId 0
  let r2 ← getRoot
  let result ← insertNonFull fuel r2 key val
  if result then incSize
  pure result

/-- Embeds `BTree::findValue`: look for the key in the current node (any
level), return its co-located value on a hit, else descend. -/
def findValue : Nat → Nat → Int → MK (Option Int)
  | 0, _, _ => StE.throwErr Err.outOfFuel
  | fuel + 1, id, key => do
    match ← nFindKeyIndex id key with
    | some i => do
        let v ← nGetValue id i
        pure (some v)
    | none => do
        let leaf ← nIsLeaf id
        if leaf then
          pure none
        else
          let ci ← nFindChildIndex id key
          let c ← nGetChild id ci
          findValue fuel c key

/-- Embeds `BTree::find`. -/
def find (fuel : Nat) (key : Int) : MK (Option Int) := do
  let r ← getRoot
  findValue fuel r key

/-- The `for` loop over an internal node's keys in
`BTree::traverseInOrder`: visit `(keys[i], values[i])` (unchecked value
subscript) and then the child at `i + 1` when it exists. -/
def travKidsLoop (go : Nat → MK (List (Int × Int))) (id : Nat) :
    List Int → List Int → Nat → MK (List (Int × Int))
  | [], _, _ => pure []
  | k :: ks, values, i => do
    match values.get? i with
    | none => StE.throwErr Err.ubRead
    | some v => do
        let nc ← nNumChildren id
        if i + 1 < nc then
          let c ← nGetChild id (i + 1)
          let sub ← go c
          let rest ← travKidsLoop go id ks values (i + 1)
          pure ((k, v) :: (sub ++ rest))
        else
          let rest ← travKidsLoop go id ks values (i + 1)
          pure ((k, v) :: rest)

/-- Embeds `BTree::traverseInOrder`, collecting the visited pairs. -/
def traverseGo : Nat → Nat → MK (List (Int × Int))
  | 0, _ => StE.throwErr Err.outOfFuel
  | fuel + 1, id => do
    let leaf ← nIsLeaf id
    if leaf then
      let keys ← nGetKeysSnapshot id
      let values ← nGetValuesSnapshot id
      BPlus.liftExc (BPlus.readPairs keys values 0)
    else
      let keys ← nGetKeysSnapshot id
      let values ← nGetValuesSnapshot id
      let nc ← nNumChildren id
      let first ← if 0 < nc then do
          let c0 ← nGetChild id 0
          traverseGo fuel c0
        else
          pure []
      let rest ← travKidsLoop (traverseGo fuel) id keys values 0
      pure (first ++ rest)

/-- Embeds `BTree::traverse`. -/
def traverse (fuel : Nat) : MK (List (Int × Int)) := do
  let r ← getRoot
  traverseGo fuel r

/-- Embeds `BTree::findPredecessor`: rightmost pair of a subtree. -/
def findPredecessor : Nat → Nat → MK (Int × Int)
  | 0, _ => StE.throwErr Err.outOfFuel
  | fuel + 1, id => do
    let leaf ← nIsLeaf id
    if leaf then
      let nk ← nNumKeys id
      let k ← nGetKey id (nk - 1)
      let v ← nGetValue id (nk - 1)
      pure (k, v)
    else
      let nc ← nNumChildren id
      let c ← nGetChild id (nc - 1)
      findPredecessor fuel c

/-- Embeds `BTree::findSuccessor`: leftmost pair of a subtree. -/
def findSuccessor : Nat → Nat → MK (Int × Int)
  | 0, _ => StE.throwErr Err.outOfFuel
  | fuel + 1, id => do
    let leaf ← nIsLeaf id
    if leaf then
      let k ← nGetKey id 0
      let v ← nGetValue id 0
      pure (k, v)
    else
      let c ← nGetChild id 0
      findSuccessor fuel c

/-- Embeds `BTree::borrowFromLeft` (keyed layout: the separator's value
rotates through the parent along with the key). -/
def borrowFromLeft (parentId : Nat) (childIndex : Nat) : MK Unit := do
  let childId ← nGetChild parentId childIndex
  let leftId ← nGetChild parentId (childIndex - 1)
  let pk ← nGetKey parentId (childIndex - 1)
  nInsertKey childId pk 0
  let pv ← nGetValue parentId (childIndex - 1)
  nInsertValue childId pv 0
  let lk ← nNumKeys leftId
  let lastKey ← nGetKey leftId (lk - 1)
  let lastValue ← nGetValue leftId (lk - 1)
  nRemoveKey parentId (childIndex - 1)
  nInsertKey parentId lastKey (childIndex - 1)
  nRemoveValue parentId (childIndex - 1)
  nInsertValue parentId lastValue (childIndex - 1)
  let leafL ← nIsLeaf leftId
  if !leafL then
    let lc ← nNumChildren leftId
    let moved ← nRemoveChild leftId (lc - 1)
    nInsertChild childId moved 0
  let lk2 ← nNumKeys leftId
  nRemoveKey leftId (lk2 - 1)
  let lv2 ← nNumValues leftId
  nRemoveValue leftId (lv2 - 1)

/-- Embeds `BTree::borrowFromRight`. -/
def borrowFromRight (parentId : Nat) (childIndex : Nat) : MK Unit := do
  let childId ← nGetChild parentId childIndex
  let rightId ← nGetChild parentId (childIndex + 1)
  let pk ← nGetKey parentId childIndex
  let ck ← nNumKeys childId
  nInsertKey childId pk ck
  let pv ← nGetValue parentId childIndex
  let cv ← nNumValues childId
  nInsertValue childId pv cv
  let firstKey ← nGetKey rightId 0
  let firstValue ← nGetValue rightId 0
  nRemoveKey parentId childIndex
  nInsertKey parentId firstKey childIndex
  nRemoveValue parentId childIndex
  nInsertValue parentId firstValue childIndex
  let leafR ← nIsLeaf rightId
  if !leafR then
    let moved ← nRemoveChild rightId 0
    let cc ← nNumChildren childId
    nInsertChild childId moved cc
  nRemoveKey rightId 0
  nRemoveValue rightId 0

/-- The key/value copy loop of `BTree::mergeNodes`: each pair is
appended at `numKeys()` / `numValues()`. -/
def mergeKVLoop : List Int → List Int → Nat → Nat → MK Unit
  | [], _, _, _ => pure ()
  | k :: ks, rightValues, i, leftId => do
    let lk ← nNumKeys leftId
    nInsertKey leftId k lk
    match rightValues.get? i with
    | none => StE.throwErr Err.ubRead
    | some v => do
        let lv ← nNumValues leftId
        nInsertValue leftId v lv
        mergeKVLoop ks rightValues (i + 1) leftId

/-- The `for (i = 0; i < rightChild->numChildren(); ++i)` transfer loop
of `BTree::mergeNodes`: removes the child at position `i` of the
shrinking vector each round (skipping every other child). -/
def mergeChildLoop : Nat → Nat → Nat → Nat → MK Unit
  | 0, _, _, _ => StE.throwErr Err.outOfFuel
  | fuel + 1, i, leftId, rightId => do
    let rc ← nNumChildren rightId
    if i < rc then
      let moved ← nRemoveChild rightId i
      let lc ← nNumChildren leftId
      nInsertChild leftId moved lc
      mergeChildLoop fuel (i + 1) leftId rightId
    else
      pure ()

/-- Embeds `BTree::mergeNodes`: absorb the separator pair and the right
sibling into the left child. -/
def mergeNodes (fuel : Nat) (parentId : Nat) (leftChildIndex : Nat) : MK Unit := do
  let leftId ← nGetChild parentId leftChildIndex
  let rightId ← nGetChild parentId (leftChildIndex + 1)
  let pk ← nGetKey parentId leftChildIndex
  let pv ← nGetValue parentId leftChildIndex
  let lk ← nNumKeys leftId
  nInsertKey leftId pk lk
  let lv ← nNumValues leftId
  nInsertValue leftId pv lv
  let rightKeys ← nGetKeysSnapshot rightId
  let rightValues ← nGetValuesSnapshot rightId
  mergeKVLoop rightKeys rightValues 0 leftId
  let leafL ← nIsLeaf leftId
  if !leafL then
    mergeChildLoop fuel 0 leftId rightId
  nRemoveKey parentId leftChildIndex
  nRemoveValue parentId leftChildIndex
  let _ ← nRemoveChild parentId (leftChildIndex + 1)
  pure ()

/-- Embeds `BTree::ensureMinKeys`: borrow from a sibling with more than
`Degree - 1` keys, else merge with a sibling. -/
def ensureMinKeys (fuel : Nat) (parentId : Nat) (childIndex : Nat) : MK Unit := do
  let d ← getDeg
  let leftOk ←
    if 0 < childIndex then do
      let leftId ← nGetChild parentId (childIndex - 1)
      let lk ← nNumKeys leftId
      pure (decide (d ≤ lk))
    else
      pure false
  if leftOk then
    borrowFromLeft parentId childIndex
  else
    let nc ← nNumChildren parentId
    let rightOk ←
      if childIndex < nc - 1 then do
        let rightId ← nGetChild parentId (childIndex + 1)
        let rk ← nNumKeys rightId
        pure (decide (d ≤ rk))
      else
        pure false
    if rightOk then
      borrowFromRight parentId childIndex
    else
      if 0 < childIndex then
        mergeNodes fuel parentId (childIndex - 1)
      else
        mergeNodes fuel parentId childIndex

/-- Embeds `BTree::removeKey`. -/
def removeKeyGo : Nat → Nat → Int → MK Bool
  | 0, _, _ => StE.throwErr Err.outOfFuel
  | fuel + 1, id, key => do
    match ← nFindKeyIndex id key with
    | some index => do
        let leaf ← nIsLeaf id
        if leaf then
          nRemoveKey id index
          nRemoveValue id index
          pure true
        else
          let leftId ← nGetChild id index
          let rightId ← nGetChild id (index + 1)
          let d ← getDeg
          let lk ← nNumKeys leftId
          if d ≤ lk then
            let pred ← findPredecessor fuel leftId
            nRemoveKey id index
            nInsertKey id pred.1 index
            nRemoveValue id index
            nInsertValue id pred.2 index
            removeKeyGo fuel leftId pred.1
          else
            let rk ← nNumKeys rightId
            if d ≤ rk then
              let succ ← findSuccessor fuel rightId
              nRemoveKey id index
              nInsertKey id succ.1 index
              nRemoveValue id index
              nInsertValue id succ.2 index
              removeKeyGo fuel rightId succ.1
            else do
              mergeNodes fuel id index
              removeKeyGo fuel leftId key
    | none => do
        let leaf ← nIsLeaf id
        if leaf then
          pure false
        else
          let childIndex ← nFindChildIndex id key
          let childId ← nGetChild id childIndex
          let d ← getDeg
          let ck ← nNumKeys childId
          if ck < d then do
            ensureMinKeys fuel id childIndex
            let c ← nGetChild id childIndex
            removeKeyGo fuel c key
          else
            removeKeyGo fuel childId key

/-- Embeds `BTree::remove`. -/
def remove (fuel : Nat) (key : Int) : MK Bool := do
  let r ← getRoot
  let result ← removeKeyGo fuel r key
  let r2 ← getRoot
  let leaf ← nIsLeaf r2
  let nk ← nNumKeys r2
  if !leaf && nk = 0 then
    let newRoot ← nRemoveChild r2 0
    setRoot newRoot
  if result then decSize
  pure result

end BT


/-!
Concrete executions of the embedded operations, used to settle the
claims. All scenarios run at minimum degree 2 with generous fuel. Each
intermediate tree state is spelled out as a literal and the step from
its predecessor is certified by a lemma, so that every claim theorem
rests on a verified replay of the public-operation sequence.
-/

/-- Fuel ample for every evaluated scenario. -/
def fuel50 : Nat := 50

/-- Leaf-value layout, scenario A: start from an empty degree-2 tree. -/
def pA0 : BPlus.PState := BPlus.initState 2

/-- State after `insert(1, 10)`. -/
def pA1st : BPlus.PState :=
  { deg := 2
    nodes := [{ isLeaf := true, keys := [1], values := [10], children := [], nextLeaf := none }]
    root := 0
    size := 1 }

/-- State after `insert(2, 20)`. -/
def pA2st : BPlus.PState :=
  { deg := 2
    nodes := [{ isLeaf := true, keys := [1, 2], values := [10, 20], children := [], nextLeaf := none }]
    root := 0
    size := 2 }

/-- State after `insert(3, 30)`: the root leaf is now full. -/
def pA3st : BPlus.PState :=
  { deg := 2
    nodes := [{ isLeaf := true, keys := [1, 2, 3], values := [10, 20, 30], children := [], nextLeaf := none }]
    root := 0
    size := 3 }

/-- State after `insert(4, 40)`: the root leaf was split; node 1 is the
new internal root over the chained leaves 0 and 2. -/
def pA4st : BPlus.PState :=
  { deg := 2
    nodes :=
      [{ isLeaf := true, keys := [1], values := [10], children := [], nextLeaf := some 2 },
       { isLeaf := false, keys := [2], values := [], children := [0, 2], nextLeaf := none },
       { isLeaf := true, keys := [2, 3, 4], values := [20, 30, 40], children := [], nextLeaf := none }]
    root := 1
    size := 4 }

/-- State after `remove(1)`: completed, leaving leaf 0 with no keys. -/
def pA5st : BPlus.PState :=
  { deg := 2
    nodes :=
      [{ isLeaf := true, keys := [], values := [], children := [], nextLeaf := some 2 },
       { isLeaf := false, keys := [2], values := [], children := [0, 2], nextLeaf := none },
       { isLeaf := true, keys := [2, 3, 4], values := [20, 30, 40], children := [], nextLeaf := none }]
    root := 1
    size := 3 }

/-- State left behind by the throwing `remove(0)`: the leaf merge copied
the right sibling's first key 2 into leaf 0 and then died inserting its
value, so leaf 0 holds a key with no value, still chained to leaf 2,
which is still a child of the root. -/
def pA6st : BPlus.PState :=
  { deg := 2
    nodes :=
      [{ isLeaf := true, keys := [2], values := [], children := [], nextLeaf := some 2 },
       { isLeaf := false, keys := [2], values := [], children := [0, 2], nextLeaf := none },
       { isLeaf := true, keys := [2, 3, 4], values := [20, 30, 40], children := [], nextLeaf := none }]
    root := 1
    size := 3 }

/-- State after the duplicate `insert(3, 99)` on `pA4st`: the full leaf
2 was split (key 3 promoted as separator), the redirect descended into
the left half, and 3 was inserted there a second time. -/
def pDupst : BPlus.PState :=
  { deg := 2
    nodes :=
      [{ isLeaf := true, keys := [1], values := [10], children := [], nextLeaf := some 2 },
       { isLeaf := false, keys := [2, 3], values := [], children := [0, 2, 3], nextLeaf := none },
       { isLeaf := true, keys := [2, 3], values := [20, 99], children := [], nextLeaf := some 3 },
       { isLeaf := true, keys := [3, 4], values := [30, 40], children := [], nextLeaf := none }]
    root := 1
    size := 5 }

/-- Scenario B: state after `insert(5, 50)` on `pA4st` (leaf 2 split,
separator 3 promoted). -/
def pB5st : BPlus.PState :=
  { deg := 2
    nodes :=
      [{ isLeaf := true, keys := [1], values := [10], children := [], nextLeaf := some 2 },
       { isLeaf := false, keys := [2, 3], values := [], children := [0, 2, 3], nextLeaf := none },
       { isLeaf := true, keys := [2], values := [20], children := [], nextLeaf := some 3 },
       { isLeaf := true, keys := [3, 4, 5], values := [30, 40, 50], children := [], nextLeaf := none }]
    root := 1
    size := 5 }

/-- State after `remove(2)` on `pB5st`: completed, emptying leaf 2. -/
def pB6st : BPlus.PState :=
  { deg := 2
    nodes :=
      [{ isLeaf := true, keys := [1], values := [10], children := [], nextLeaf := some 2 },
       { isLeaf := false, keys := [2, 3], values := [], children := [0, 2, 3], nextLeaf := none },
       { isLeaf := true, keys := [], values := [], children := [], nextLeaf := some 3 },
       { isLeaf := true, keys := [3, 4, 5], values := [30, 40, 50], children := [], nextLeaf := none }]
    root := 1
    size := 4 }

/-- State left behind by the second, throwing `remove(2)`: borrowing
from the right leaf sibling copied key 3 into leaf 2 and then died
inserting its value. -/
def pB7st : BPlus.PState :=
  { deg := 2
    nodes :=
      [{ isLeaf := true, keys := [1], values := [10], children := [], nextLeaf := some 2 },
       { isLeaf := false, keys := [2, 3], values := [], children := [0, 2, 3], nextLeaf := none },
       { isLeaf := true, keys := [3], values := [], children := [], nextLeaf := some 3 },
       { isLeaf := true, keys := [3, 4, 5], values := [30, 40, 50], children := [], nextLeaf := none }]
    root := 1
    size := 4 }

set_option maxHeartbeats 1000000 in
/-- Replay: `insert(1, 10)` on the empty tree. -/
theorem pA1_step : BPlus.insert fuel50 1 10 pA0 = (pA1st, Except.ok true) := rfl

set_option maxHeartbeats 1000000 in
/-- Replay: `insert(2, 20)`. -/
theorem pA2_step : BPlus.insert fuel50 2 20 pA1st = (pA2st, Except.ok true) := rfl

set_option maxHeartbeats 1000000 in
/-- Replay: `insert(3, 30)`. -/
theorem pA3_step : BPlus.insert fuel50 3 30 pA2st = (pA3st, Except.ok true) := rfl

set_option maxHeartbeats 1000000 in
/-- Replay: `insert(4, 40)` splits the full root leaf. -/
theorem pA4_step : BPlus.insert fuel50 4 40 pA3st = (pA4st, Except.ok true) := rfl

set_option maxHeartbeats 1000000 in
/-- Replay: `remove(1)` completes without rebalancing, emptying a
non-root leaf. -/
theorem pA5_step : BPlus.remove fuel50 1 pA4st = (pA5st, Except.ok true) := rfl

set_option maxHeartbeats 1000000 in
/-- Replay: `remove(0)` triggers a leaf merge whose value insertion
throws `IndexOutOfRange`, which escapes the public operation. -/
theorem pA6_step : BPlus.remove fuel50 0 pA5st = (pA6st, Except.error Err.indexOutOfRange) := rfl

set_option maxHeartbeats 1000000 in
/-- Replay: the duplicate `insert(3, 99)` returns true and mutates. -/
theorem pDup_step : BPlus.insert fuel50 3 99 pA4st = (pDupst, Except.ok true) := rfl

set_option maxHeartbeats 1000000 in
/-- Replay: `insert(5, 50)`. -/
theorem pB5_step : BPlus.insert fuel50 5 50 pA4st = (pB5st, Except.ok true) := rfl

set_option maxHeartbeats 1000000 in
/-- Replay: `remove(2)` completes, emptying a non-root leaf. -/
theorem pB6_step : BPlus.remove fuel50 2 pB5st = (pB6st, Except.ok true) := rfl

set_option maxHeartbeats 1000000 in
/-- Replay: the second `remove(2)` borrows from the right leaf sibling
and throws `IndexOutOfRange`, which escapes the public operation. -/
theorem pB7_step : BPlus.remove fuel50 2 pB6st = (pB7st, Except.error Err.indexOutOfRange) := rfl

set_option maxHeartbeats 1000000 in
/-- Replay: traversal of the four-key tree is still correct. -/
theorem pA4_trav : BPlus.traverse fuel50 pA4st = (pA4st, Except.ok [(1, 10), (2, 20), (3, 30), (4, 40)]) := rfl

set_option maxHeartbeats 1000000 in
/-- Replay: traversal after the duplicate insert lists key 3 twice. -/
theorem pDup_trav :
    BPlus.traverse fuel50 pDupst =
      (pDupst, Except.ok [(1, 10), (2, 20), (3, 99), (3, 30), (4, 40)]) := rfl

set_option maxHeartbeats 1000000 in
/-- Replay: `range(0, 5)` on the post-merge-throw state aborts on an
out-of-bounds value read. -/
theorem pA6_range :
    BPlus.rangeQuery fuel50 0 5 pA6st = (pA6st, Except.error Err.ubRead) := rfl

set_option maxHeartbeats 1000000 in
/-- Replay: the leaf chain of the post-merge-throw state reads
2, 2, 3, 4. -/
theorem pA6_chain : BPlus.chainKeys pA6st 10 (some 0) = [2, 2, 3, 4] := rfl

/-- Keyed layout, scenario K: start from an empty degree-2 tree. -/
def kA0 : BT.KState := BT.initState 2

/-- State after `insert(1, 10)`. -/
def kA1st : BT.KState :=
  { deg := 2
    nodes := [{ isLeaf := true, keys := [1], values := [10], children := [] }]
    root := 0
    size := 1 }

/-- State after `insert(2, 20)`. -/
def kA2st : BT.KState :=
  { deg := 2
    nodes := [{ isLeaf := true, keys := [1, 2], values := [10, 20], children := [] }]
    root := 0
    size := 2 }

/-- State after `insert(3, 30)`: the root leaf is now full. -/
def kA3st : BT.KState :=
  { deg := 2
    nodes := [{ isLeaf := true, keys := [1, 2, 3], values := [10, 20, 30], children := [] }]
    root := 0
    size := 3 }

/-- State after `insert(0, 5)`: the full root leaf was split; key 2 was
promoted into the new internal root (node 1) with no value, while the
new sibling leaf kept key 2 paired with value 30 — value 20 is gone. -/
def kA4st : BT.KState :=
  { deg := 2
    nodes :=
      [{ isLeaf := true, keys := [0, 1], values := [5, 10], children := [] },
       { isLeaf := false, keys := [2], values := [], children := [0, 2] },
       { isLeaf := true, keys := [2, 3], values := [30], children := [] }]
    root := 1
    size := 4 }

/-- State left behind by the throwing `remove(2)`: the predecessor key 1
replaced key 2 in the root before the value replacement threw. -/
def kRemst : BT.KState :=
  { deg := 2
    nodes :=
      [{ isLeaf := true, keys := [0, 1], values := [5, 10], children := [] },
       { isLeaf := false, keys := [1], values := [], children := [0, 2] },
       { isLeaf := true, keys := [2, 3], values := [30], children := [] }]
    root := 1
    size := 4 }

set_option maxHeartbeats 1000000 in
/-- Replay: `insert(1, 10)` on the empty keyed tree. -/
theorem kA1_step : BT.insert fuel50 1 10 kA0 = (kA1st, Except.ok true) := rfl

set_option maxHeartbeats 1000000 in
/-- Replay: `insert(2, 20)`. -/
theorem kA2_step : BT.insert fuel50 2 20 kA1st = (kA2st, Except.ok true) := rfl

set_option maxHeartbeats 1000000 in
/-- Replay: `insert(3, 30)`. -/
theorem kA3_step : BT.insert fuel50 3 30 kA2st = (kA3st, Except.ok true) := rfl

set_option maxHeartbeats 1000000 in
/-- Replay: `insert(0, 5)` splits the full root leaf. -/
theorem kA4_step : BT.insert fuel50 0 5 kA3st = (kA4st, Except.ok true) := rfl

set_option maxHeartbeats 1000000 in
/-- Replay: `find(2)` reads the value of key 2 in the internal root,
whose value vector is empty, and the `IndexOutOfRange` escapes. -/
theorem kFind_step : BT.find fuel50 2 kA4st = (kA4st, Except.error Err.indexOutOfRange) := rfl

set_option maxHeartbeats 1000000 in
/-- Replay: `traverse` aborts on the out-of-bounds read of the internal
root's empty value vector. -/
theorem kTrav_step : BT.traverse fuel50 kA4st = (kA4st, Except.error Err.ubRead) := rfl

set_option maxHeartbeats 1000000 in
/-- Replay: `remove(2)` takes the predecessor branch and throws
replacing the value in the internal root. -/
theorem kRem_step : BT.remove fuel50 2 kA4st = (kRemst, Except.error Err.indexOutOfRange) := rfl

/-- A single full keyed leaf (degree 2): keys 1, 2, 3 with values
10, 20, 30. -/
def kSplitIn : BT.KState :=
  { deg := 2
    nodes := [{ isLeaf := true, keys := [1, 2, 3], values := [10, 20, 30], children := [] }]
    root := 0
    size := 3 }

/-- Result of `BTreeNode::split` on that full leaf: midpoint key 2 is
returned to the caller and also kept as the new sibling's first key,
while its value 20 survives in neither node. -/
def kSplitOutSt : BT.KState :=
  { deg := 2
    nodes :=
      [{ isLeaf := true, keys := [1], values := [10], children := [] },
       { isLeaf := true, keys := [2, 3], values := [30], children := [] }]
    root := 0
    size := 3 }

set_option maxHeartbeats 1000000 in
/-- Replay: `BTreeNode::split` on the full leaf. -/
theorem kSplit_step : BT.nSplit 0 kSplitIn = (kSplitOutSt, Except.ok (2, 1)) := rfl

/-!
Claim theorems. Each one replays a sequence of public operations from
the empty tree (via the step lemmas above) and records the behaviour at
the decisive input.
-/

/-- C1: the claim says no `IndexOutOfRange` or `InvalidOperation` ever
escapes a Tree-level operation — in particular not from a remove on the
leaf-value tree that merges leaves or borrows from a right leaf sibling,
nor from a find on the keyed tree for a key held in an internal node.
The code refutes all three scenarios: after inserting 1..4 and removing
1, `remove(0)` dies inside the leaf merge; after inserting 1..5 and
removing 2, a second `remove(2)` dies borrowing from the right leaf
sibling; and on the keyed tree built by inserting 1, 2, 3, 0, the
promoted key 2 sits in the internal root with an empty value vector, so
`find(2)` dies with `IndexOutOfRange`. -/
theorem spec_C1_internal_errors_escape :
    BPlus.insert fuel50 1 10 pA0 = (pA1st, Except.ok true) ∧
    BPlus.insert fuel50 2 20 pA1st = (pA2st, Except.ok true) ∧
    BPlus.insert fuel50 3 30 pA2st = (pA3st, Except.ok true) ∧
    BPlus.insert fuel50 4 40 pA3st = (pA4st, Except.ok true) ∧
    BPlus.remove fuel50 1 pA4st = (pA5st, Except.ok true) ∧
    (BPlus.remove fuel50 0 pA5st).2 = Except.error Err.indexOutOfRange ∧
    BPlus.insert fuel50 5 50 pA4st = (pB5st, Except.ok true) ∧
    BPlus.remove fuel50 2 pB5st = (pB6st, Except.ok true) ∧
    (BPlus.remove fuel50 2 pB6st).2 = Except.error Err.indexOutOfRange ∧
    BT.insert fuel50 1 10 kA0 = (kA1st, Except.ok true) ∧
    BT.insert fuel50 2 20 kA1st = (kA2st, Except.ok true) ∧
    BT.insert fuel50 3 30 kA2st = (kA3st, Except.ok true) ∧
    BT.insert fuel50 0 5 kA3st = (kA4st, Except.ok true) ∧
    kA4st.nodes.get? 1 =
      some { isLeaf := false, keys := [2], values := [], children := [0, 2] } ∧
    kA4st.root = 1 ∧
    (BT.find fuel50 2 kA4st).2 = Except.error Err.indexOutOfRange :=
  ⟨pA1_step, pA2_step, pA3_step, pA4_step, pA5_step,
   by rw [pA6_step], pB5_step, pB6_step, by rw [pB7_step],
   kA1_step, kA2_step, kA3_step, kA4_step, rfl, rfl, by rw [kFind_step]⟩

/-- C2: the claim says `split()` on a full keyed node promotes the
midpoint key together with its value exactly once, removes both from
the origin, and hands the new right sibling the upper half excluding
the midpoint entry, each remaining key still paired with its value. On
the full leaf (keys 1, 2, 3 with values 10, 20, 30) the code instead
returns midpoint key 2 to the caller while also keeping it as the new
sibling's first key, destroys value 20 outright, and leaves the sibling
with two keys but one value. -/
theorem spec_C2_split_misplaces_midpoint :
    BT.nSplit 0 kSplitIn = (kSplitOutSt, Except.ok (2, 1)) ∧
    kSplitOutSt.nodes.map BT.KNode.keys = [[1], [2, 3]] ∧
    kSplitOutSt.nodes.map BT.KNode.values = [[10], [30]] :=
  ⟨kSplit_step, rfl, rfl⟩

/-- C3: the claim says that after any sequence of successful inserts
and removes every non-root node keeps between `d-1` and `2d-1` keys.
After the successful inserts of 1..4 and the successful `remove(1)` on
the degree-2 leaf-value tree, node 0 — a child of the internal root —
holds zero keys, below the minimum of one: `remove` descends into a
child holding exactly `d-1` keys without rebalancing (the code only
rebalances a child already below `d-1`) and deletes from it. -/
theorem spec_C3_occupancy_violated :
    BPlus.insert fuel50 1 10 pA0 = (pA1st, Except.ok true) ∧
    BPlus.insert fuel50 2 20 pA1st = (pA2st, Except.ok true) ∧
    BPlus.insert fuel50 3 30 pA2st = (pA3st, Except.ok true) ∧
    BPlus.insert fuel50 4 40 pA3st = (pA4st, Except.ok true) ∧
    BPlus.remove fuel50 1 pA4st = (pA5st, Except.ok true) ∧
    pA5st.deg = 2 ∧
    pA5st.root = 1 ∧
    pA5st.nodes.get? 1 =
      some { isLeaf := false, keys := [2], values := [], children := [0, 2],
             nextLeaf := none } ∧
    pA5st.nodes.get? 0 =
      some { isLeaf := true, keys := [], values := [], children := [],
             nextLeaf := some 2 } :=
  ⟨pA1_step, pA2_step, pA3_step, pA4_step, pA5_step, rfl, rfl, rfl, rfl⟩

/-- C4: the claim says a traversal after inserting pairwise-distinct
keys yields exactly those keys, ascending, paired with their values.
On the keyed tree built by inserting (1,10), (2,20), (3,30), (0,5) the
root split leaves key 2 both in the internal root (with no value) and
in a leaf (paired with 30, not 20), and `traverse` aborts on the
out-of-bounds read of the root's empty value vector instead of
yielding (0,5), (1,10), (2,20), (3,30). -/
theorem spec_C4_traverse_wrong :
    BT.insert fuel50 1 10 kA0 = (kA1st, Except.ok true) ∧
    BT.insert fuel50 2 20 kA1st = (kA2st, Except.ok true) ∧
    BT.insert fuel50 3 30 kA2st = (kA3st, Except.ok true) ∧
    BT.insert fuel50 0 5 kA3st = (kA4st, Except.ok true) ∧
    kA4st.nodes.map BT.KNode.keys = [[0, 1], [2], [2, 3]] ∧
    kA4st.nodes.map BT.KNode.values = [[5, 10], [], [30]] ∧
    (BT.traverse fuel50 kA4st).2 = Except.error Err.ubRead :=
  ⟨kA1_step, kA2_step, kA3_step, kA4_step, rfl, rfl, by rw [kTrav_step]⟩

/-- C5: the claim says inserting an already-present key returns false
and leaves the tree unchanged — size, traversal and structure — even
when a node is full. On the degree-2 leaf-value tree holding 1, 2, 3, 4
the duplicate `insert(3, 99)` splits the full leaf [2, 3, 4] on the way
down, promotes 3 as separator, and the post-split redirect
(`getKey(i) < key`, false on equality) descends into the left half,
which no longer holds 3 — so the insert returns true, bumps the size to
5, and stores key 3 twice; the traversal changes accordingly. -/
theorem spec_C5_duplicate_insert_modifies :
    BPlus.insert fuel50 1 10 pA0 = (pA1st, Except.ok true) ∧
    BPlus.insert fuel50 2 20 pA1st = (pA2st, Except.ok true) ∧
    BPlus.insert fuel50 3 30 pA2st = (pA3st, Except.ok true) ∧
    BPlus.insert fuel50 4 40 pA3st = (pA4st, Except.ok true) ∧
    pA4st.size = 4 ∧
    (BPlus.traverse fuel50 pA4st).2 =
      Except.ok [(1, 10), (2, 20), (3, 30), (4, 40)] ∧
    BPlus.insert fuel50 3 99 pA4st = (pDupst, Except.ok true) ∧
    pDupst.size = 5 ∧
    (BPlus.traverse fuel50 pDupst).2 =
      Except.ok [(1, 10), (2, 20), (3, 99), (3, 30), (4, 40)] :=
  ⟨pA1_step, pA2_step, pA3_step, pA4_step, rfl, by rw [pA4_trav],
   pDup_step, rfl, by rw [pDup_trav]⟩

/-- C6: the claim says `range(low, high)` always returns exactly the
in-range present pairs in ascending order for `low ≤ high`. In the
state reached by public operations alone — inserts 1..4, the successful
`remove(1)`, then the `remove(0)` whose merge throws — the first leaf
holds a key with no value, and `range(0, 5)` aborts on an out-of-bounds
value read instead of returning (2,20), (3,30), (4,40). -/
theorem spec_C6_range_faults :
    BPlus.remove fuel50 1 pA4st = (pA5st, Except.ok true) ∧
    BPlus.remove fuel50 0 pA5st = (pA6st, Except.error Err.indexOutOfRange) ∧
    pA6st.nodes.get? 0 =
      some { isLeaf := true, keys := [2], values := [], children := [],
             nextLeaf := some 2 } ∧
    (BPlus.rangeQuery fuel50 0 5 pA6st).2 = Except.error Err.ubRead :=
  ⟨pA5_step, pA6_step, rfl, by rw [pA6_range]⟩

/-- C7: the claim says the leaf chain always yields the ascending key
sequence of the tree, `splitLeaf` rewiring the chain and a leaf merge
linking the survivor to the absorbed leaf's successor. The merge
triggered by `remove(0)` throws after copying the right sibling's first
key into the left leaf: the absorbed leaf is never unlinked — the left
leaf still points at it and the parent still lists both — and walking
the chain from the leftmost leaf now reads 2, 2, 3, 4, which is not
strictly ascending. -/
theorem spec_C7_chain_broken :
    BPlus.remove fuel50 0 pA5st = (pA6st, Except.error Err.indexOutOfRange) ∧
    pA6st.nodes.get? 0 =
      some { isLeaf := true, keys := [2], values := [], children := [],
             nextLeaf := some 2 } ∧
    pA6st.nodes.get? 1 =
      some { isLeaf := false, keys := [2], values := [], children := [0, 2],
             nextLeaf := none } ∧
    BPlus.chainKeys pA6st 10 (some 0) = [2, 2, 3, 4] ∧
    ¬ List.Chain' (fun a b => a < b) (BPlus.chainKeys pA6st 10 (some 0)) :=
  ⟨pA6_step, rfl, rfl, pA6_chain, by
    rw [pA6_chain]
    intro h
    exact absurd (List.chain'_cons.mp h).1 (by decide)⟩

/-- C8: the claim says a remove that finds its key in an internal node
whose left child holds more than `d-1` keys replaces the key and its
value by the in-order predecessor and recurses into the left subtree.
On the keyed tree of scenario K, `remove(2)` finds key 2 in the
internal root, whose left child holds two keys (≥ degree 2), and takes
the predecessor branch — but throws `IndexOutOfRange`: the root's value
vector is empty (the split promoted the key without a value), so the
value replacement fails after the key was already swapped. -/
theorem spec_C8_predecessor_remove_throws :
    BT.insert fuel50 0 5 kA3st = (kA4st, Except.ok true) ∧
    kA4st.deg = 2 ∧
    kA4st.root = 1 ∧
    kA4st.nodes.get? 1 =
      some { isLeaf := false, keys := [2], values := [], children := [0, 2] } ∧
    kA4st.nodes.get? 0 =
      some { isLeaf := true, keys := [0, 1], values := [5, 10], children := [] } ∧
    BT.remove fuel50 2 kA4st = (kRemst, Except.error Err.indexOutOfRange) :=
  ⟨kA4_step, rfl, rfl, rfl, rfl, kRem_step⟩

/-!
Frame property of the read-only operations (`find`, `rangeQuery`,
`traverse` on the leaf-value layout, `find` on the keyed layout): they
are built exclusively from reading primitives, so they return their
input state unchanged — on every state, every argument, and every
outcome, error included.
-/

/-- A computation that never writes: whatever it returns, the state
component of its result is the input state. -/
def Pres {σ α : Type} (m : StE σ α) : Prop := ∀ st, (m st).1 = st

/-- Pure values write nothing. -/
theorem presPure {σ α : Type} (a : α) : Pres (pure (f := StE σ) a) := fun _ => rfl

/-- Throwing writes nothing. -/
theorem presThrow {σ α : Type} (e : Err) : Pres (StE.throwErr (σ := σ) (α := α) e) :=
  fun _ => rfl

/-- Lifting a pure `Except` computation writes nothing. -/
theorem presLift {σ α : Type} (x : Except Err α) : Pres (BPlus.liftExc (σ := σ) x) :=
  fun _ => rfl

/-- Sequencing two non-writing computations writes nothing. -/
theorem presBind {σ α β : Type} {m : StE σ α} {f : α → StE σ β}
    (hm : Pres m) (hf : ∀ a, Pres (f a)) : Pres (m >>= f) := by
  intro st
  have h1 := hm st
  show (match m st with
        | (st1, Except.ok a) => f a st1
        | (st1, Except.error e) => (st1, Except.error e)).1 = st
  rcases hms : m st with ⟨st1, exc⟩
  rw [hms] at h1
  cases exc with
  | ok a => exact (hf a st1).trans h1
  | error e => exact h1

namespace BPlus

/-- Reading a node writes nothing. -/
theorem presGetNode (id : Nat) : Pres (getNode id) := by
  intro st
  show (match st.nodes.get? id with
        | some n => (st, Except.ok n)
        | none => (st, Except.error Err.ubRead)).1 = st
  cases st.nodes.get? id <;> rfl

/-- Reading the degree writes nothing. -/
theorem presGetDeg : Pres getDeg := fun _ => rfl

/-- Reading the root id writes nothing. -/
theorem presGetRoot : Pres getRoot := fun _ => rfl

/-- `findKeyIndex` writes nothing. -/
theorem presFindKeyIndex (id : Nat) (k : Int) : Pres (nFindKeyIndex id k) :=
  presBind (presGetNode id) (fun _ => presPure _)

/-- `findChildIndex` writes nothing. -/
theorem presFindChildIndex (id : Nat) (k : Int) : Pres (nFindChildIndex id k) :=
  presBind (presGetNode id) (fun n => by
    cases n.isLeaf
    · exact presPure _
    · exact presThrow _)

/-- `getKeysSnapshot` writes nothing. -/
theorem presGetKeysSnapshot (id : Nat) : Pres (nGetKeysSnapshot id) :=
  presBind (presGetNode id) (fun _ => presPure _)

/-- `getValuesSnapshot` writes nothing. -/
theorem presGetValuesSnapshot (id : Nat) : Pres (nGetValuesSnapshot id) :=
  presBind (presGetNode id) (fun n => by
    cases n.isLeaf
    · exact presThrow _
    · exact presPure _)

/-- `getKey` writes nothing. -/
theorem presGetKey (id idx : Nat) : Pres (nGetKey id idx) :=
  presBind (presGetNode id) (fun n => by
    cases n.keys.get? idx
    · exact presThrow _
    · exact presPure _)

/-- `getValue` writes nothing. -/
theorem presGetValue (id idx : Nat) : Pres (nGetValue id idx) :=
  presBind (presGetNode id) (fun n => by
    cases n.isLeaf
    · exact presThrow _
    · cases n.values.get? idx
      · exact presThrow _
      · exact presPure _)

/-- `getChild` writes nothing. -/
theorem presGetChild (id idx : Nat) : Pres (nGetChild id idx) :=
  presBind (presGetNode id) (fun n => by
    cases n.isLeaf
    · cases n.children.get? idx
      · exact presThrow _
      · exact presPure _
    · exact presThrow _)

/-- `isLeaf` writes nothing. -/
theorem presIsLeaf (id : Nat) : Pres (nIsLeaf id) :=
  presBind (presGetNode id) (fun _ => presPure _)

/-- `getNextLeaf` writes nothing. -/
theorem presGetNextLeaf (id : Nat) : Pres (nGetNextLeaf id) :=
  presBind (presGetNode id) (fun n => by
    cases n.isLeaf
    · exact presPure _
    · exact presPure _)

/-- The descent loop of `find` writes nothing. -/
theorem presFindLoop (key : Int) : ∀ fuel id, Pres (findLoop fuel id key) := by
  intro fuel
  induction fuel with
  | zero => intro id; exact presThrow _
  | succ n ih =>
    intro id
    refine presBind (presIsLeaf id) (fun leaf => ?hf)
    cases leaf
    · exact presBind (presFindChildIndex id key) (fun i =>
        presBind (presGetChild id i) (fun c => ih c))
    · refine presBind (presFindKeyIndex id key) (fun r => ?hr)
      cases r
      · exact presPure _
      · exact presBind (presGetValue id _) (fun v => presPure _)

/-- `find` writes nothing. -/
theorem presFind (fuel : Nat) (key : Int) : Pres (find fuel key) :=
  presBind presGetRoot (fun r => presFindLoop key fuel r)

/-- The key loop of `traverseInOrder` over an internal node writes
nothing whenever the recursive visitor does. -/
theorem presTraverseKidsLoop {go : Nat → M (List (Int × Int))}
    (hgo : ∀ c, Pres (go c)) :
    ∀ remaining id i, Pres (traverseKidsLoop go id remaining i) := by
  intro remaining
  induction remaining with
  | zero => intro id i; exact presPure _
  | succ n ih =>
    intro id i
    exact presBind (presGetChild id (i + 1)) (fun c =>
      presBind (hgo c) (fun here =>
        presBind (ih id (i + 1)) (fun rest => presPure _)))

/-- `traverseInOrder` writes nothing. -/
theorem presTraverseGo : ∀ fuel id, Pres (traverseGo fuel id) := by
  intro fuel
  induction fuel with
  | zero => intro id; exact presThrow _
  | succ n ih =>
    intro id
    refine presBind (presIsLeaf id) (fun leaf => ?hf)
    cases leaf
    · exact presBind (presGetKeysSnapshot id) (fun keys =>
        presBind (presGetChild id 0) (fun c0 =>
          presBind (ih c0) (fun first =>
            presBind (presTraverseKidsLoop ih keys.length id 0) (fun rest =>
              presPure _))))
    · exact presBind (presGetKeysSnapshot id) (fun keys =>
        presBind (presGetValuesSnapshot id) (fun values =>
          presLift _))

/-- `traverse` writes nothing. -/
theorem presTraverse (fuel : Nat) : Pres (traverse fuel) :=
  presBind presGetRoot (fun r => presTraverseGo fuel r)

/-- `findLeaf` writes nothing. -/
theorem presFindLeafGo (key : Int) : ∀ fuel id, Pres (findLeafGo fuel id key) := by
  intro fuel
  induction fuel with
  | zero => intro id; exact presThrow _
  | succ n ih =>
    intro id
    refine presBind (presIsLeaf id) (fun leaf => ?hf)
    cases leaf
    · exact presBind (presFindChildIndex id key) (fun i =>
        presBind (presGetChild id i) (fun c => ih c))
    · exact presPure _

/-- The leaf-chain walk of `rangeQuery` writes nothing. -/
theorem presRangeLoop (lo hi : Int) :
    ∀ fuel leafId, Pres (rangeLoop fuel leafId lo hi) := by
  intro fuel
  induction fuel with
  | zero => intro leafId; cases leafId <;> exact presThrow _
  | succ n ih =>
    intro leafId
    cases leafId with
    | none => exact presPure _
    | some id =>
      refine presBind (presGetKeysSnapshot id) (fun keys => ?h1)
      refine presBind (presGetValuesSnapshot id) (fun values => ?h2)
      refine presBind (presLift _) (fun p => ?h3)
      cases hp : p.2
      · exact presBind (presGetNextLeaf id) (fun next =>
          presBind (ih next) (fun rest => presPure _))
      · exact presPure _

/-- `rangeQuery` writes nothing. -/
theorem presRangeQuery (fuel : Nat) (lo hi : Int) : Pres (rangeQuery fuel lo hi) :=
  presBind presGetRoot (fun r =>
    presBind (presFindLeafGo lo fuel r) (fun leafId =>
      presRangeLoop lo hi fuel (some leafId)))

end BPlus

namespace BT

/-- Reading a keyed node writes nothing. -/
theorem presKGetNode (id : Nat) : Pres (getNode id) := by
  intro st
  show (match st.nodes.get? id with
        | some n => (st, Except.ok n)
        | none => (st, Except.error Err.ubRead)).1 = st
  cases st.nodes.get? id <;> rfl

/-- Reading the root id writes nothing. -/
theorem presKGetRoot : Pres getRoot := fun _ => rfl

/-- `findKeyIndex` writes nothing. -/
theorem presKFindKeyIndex (id : Nat) (k : Int) : Pres (nFindKeyIndex id k) :=
  presBind (presKGetNode id) (fun _ => presPure _)

/-- `findChildIndex` writes nothing. -/
theorem presKFindChildIndex (id : Nat) (k : Int) : Pres (nFindChildIndex id k) :=
  presBind (presKGetNode id) (fun n => by
    cases n.isLeaf
    · exact presPure _
    · exact presThrow _)

/-- `getValue` writes nothing. -/
theorem presKGetValue (id idx : Nat) : Pres (nGetValue id idx) :=
  presBind (presKGetNode id) (fun n => by
    cases n.values.get? idx
    · exact presThrow _
    · exact presPure _)

/-- `getChild` writes nothing. -/
theorem presKGetChild (id idx : Nat) : Pres (nGetChild id idx) :=
  presBind (presKGetNode id) (fun n => by
    cases n.isLeaf
    · cases n.children.get? idx
      · exact presThrow _
      · exact presPure _
    · exact presThrow _)

/-- `isLeaf` writes nothing. -/
theorem presKIsLeaf (id : Nat) : Pres (nIsLeaf id) :=
  presBind (presKGetNode id) (fun _ => presPure _)

/-- `findValue` writes nothing. -/
theorem presKFindValue (key : Int) : ∀ fuel id, Pres (findValue fuel id key) := by
  intro fuel
  induction fuel with
  | zero => intro id; exact presThrow _
  | succ n ih =>
    intro id
    refine presBind (presKFindKeyIndex id key) (fun r => ?hr)
    cases r
    · refine presBind (presKIsLeaf id) (fun leaf => ?hf)
      cases leaf
      · exact presBind (presKFindChildIndex id key) (fun ci =>
          presBind (presKGetChild id ci) (fun c => ih c))
      · exact presPure _
    · exact presBind (presKGetValue id _) (fun v => presPure _)

/-- `find` writes nothing. -/
theorem presKFind (fuel : Nat) (key : Int) : Pres (find fuel key) :=
  presBind presKGetRoot (fun r => presKFindValue key fuel r)

/-- `getKeysSnapshot` writes nothing. -/
theorem presKGetKeysSnapshot (id : Nat) : Pres (nGetKeysSnapshot id) :=
  presBind (presKGetNode id) (fun _ => presPure _)

/-- `getValuesSnapshot` writes nothing. -/
theorem presKGetValuesSnapshot (id : Nat) : Pres (nGetValuesSnapshot id) :=
  presBind (presKGetNode id) (fun _ => presPure _)

/-- `numChildren` writes nothing. -/
theorem presKNumChildren (id : Nat) : Pres (nNumChildren id) :=
  presBind (presKGetNode id) (fun _ => presPure _)

/-- The key loop of the keyed `traverseInOrder` over an internal node
writes nothing whenever the recursive visitor does. -/
theorem presKTravKidsLoop {go : Nat → MK (List (Int × Int))}
    (hgo : ∀ c, Pres (go c)) (id : Nat) :
    ∀ ks values i, Pres (travKidsLoop go id ks values i) := by
  intro ks
  induction ks with
  | nil => intro values i; exact presPure _
  | cons k ks ih =>
    intro values i
    simp only [travKidsLoop]
    cases values.get? i with
    | none => exact presThrow _
    | some v =>
      refine presBind (presKNumChildren id) (fun nc => ?h1)
      split
      · exact presBind (presKGetChild id (i + 1)) (fun c =>
          presBind (hgo c) (fun sub =>
            presBind (ih values (i + 1)) (fun rest => presPure _)))
      · exact presBind (ih values (i + 1)) (fun rest => presPure _)

/-- The keyed `traverseInOrder` writes nothing. -/
theorem presKTraverseGo : ∀ fuel id, Pres (traverseGo fuel id) := by
  intro fuel
  induction fuel with
  | zero => intro id; exact presThrow _
  | succ n ih =>
    intro id
    refine presBind (presKIsLeaf id) (fun leaf => ?hf)
    cases leaf
    · refine presBind (presKGetKeysSnapshot id) (fun keys => ?h1)
      refine presBind (presKGetValuesSnapshot id) (fun values => ?h2)
      refine presBind (presKNumChildren id) (fun nc => ?h3)
      dsimp only
      split
      · exact presBind (presKGetChild id 0) (fun c0 =>
          presBind (ih c0) (fun first =>
            presBind (presKTravKidsLoop ih id keys values 0)
              (fun rest => presPure _)))
      · exact presBind (presPure []) (fun first =>
          presBind (presKTravKidsLoop ih id keys values 0)
            (fun rest => presPure _))
    · exact presBind (presKGetKeysSnapshot id) (fun keys =>
        presBind (presKGetValuesSnapshot id) (fun values => presLift _))

/-- The keyed `traverse` writes nothing. -/
theorem presKTraverse (fuel : Nat) : Pres (traverse fuel) :=
  presBind presKGetRoot (fun r => presKTraverseGo fuel r)

end BT

/-- C10: the read-only operations — `find`, `range` and `traverse` on
the leaf-value layout, and `find` and `traverse` on the keyed layout
(which exposes no range operation) — leave the entire tree state (node
store, root, leaf-chain links, element count) unchanged, for every
state, every argument and every fuel, whether they return a result or
an error. -/
theorem spec_C10_readers_leave_state_unchanged :
    ∀ (fuel : Nat) (k lo hi : Int) (st : BPlus.PState) (kst : BT.KState),
      (BPlus.find fuel k st).1 = st ∧
      (BPlus.rangeQuery fuel lo hi st).1 = st ∧
      (BPlus.traverse fuel st).1 = st ∧
      (BT.find fuel k kst).1 = kst ∧
      (BT.traverse fuel kst).1 = kst :=
  fun fuel k lo hi st kst =>
    ⟨BPlus.presFind fuel k st, BPlus.presRangeQuery fuel lo hi st,
     BPlus.presTraverse fuel st, BT.presKFind fuel k kst,
     BT.presKTraverse fuel kst⟩
